import Mathlib

/-!
Verification of the strided tensor kernels in `src/minitorch/tensor_ops.py`
(map / zip / reduce traversal kernels and their convenience wrappers).

The index algebra and broadcast resolver live in `tensor_data.py`, which is not
part of this snapshot; those functions are modelled from the specification
(sections 4.1 and 4.2), and every definition carrying such a model says so in
its doc comment.  Everything taken from `tensor_ops.py` mirrors the source:
the recursive traversals `recursive_set` are embedded with an explicit fuel
argument equal to `length - shape_index`, so that fuel `0` is exactly the
`if shape_index >= length: return` early exit.  Storage buffers are embedded
as Lean lists; an in-place update `out[p] = v` becomes `out.set p v`, and the
map kernel additionally records its `(position, value)` write events so that
write-count and no-read properties can be stated.
-/

/-- Modelled from the spec: `indexToPosition(coordinate, strides)` of section 4.1
(the index algebra source `tensor_data.py` is not in this snapshot).  Returns
the sum over dimensions of `coordinate[d] * strides[d]`. -/
def indexToPosition (index strides : List Nat) : Nat :=
  (List.zipWith (fun a b => a * b) index strides).sum

/-- Modelled from the spec: the default contiguous row-major strides of a shape,
`strides[d] = product of shape[d+1..]` (section 8 gives `(3,1)` for `(2,3)`). -/
def contiguousStrides : List Nat → List Nat
  | [] => []
  | _ :: rest => rest.prod :: contiguousStrides rest

/-- Modelled from the spec: `broadcastIndex(bigCoordinate, bigShape, smallShape)`
of section 4.2 (source in `tensor_data.py`, not in this snapshot), composed with
the caller-side filtering that drops the entries for the extra leading
dimensions of the big shape.  The result has exactly `smallShape.length`
entries; an aligned size-1 dimension forces its entry to `0`, otherwise the
entry is the big coordinate's entry at the right-aligned position. -/
def broadcastIndex (big bigShape smallShape : List Nat) : List Nat :=
  (List.range smallShape.length).map fun d =>
    if smallShape.getD d 0 = 1 then 0
    else big.getD (d + (bigShape.length - smallShape.length)) 0

/-- Modelled from the spec: `shapeBroadcast` of section 4.2.  Right-align the two
shapes by padding the shorter with leading 1s; every aligned pair must be equal
or contain a 1 and the result takes the maximum, otherwise the resolver fails
with `ShapeMismatch` (embedded as `none`). -/
def shapeBroadcast (a b : List Nat) : Option (List Nat) :=
  let n := max a.length b.length
  let aa := List.replicate (n - a.length) 1 ++ a
  let bb := List.replicate (n - b.length) 1 ++ b
  if (List.zipWith (fun x y => x == y || x == 1 || y == 1) aa bb).all (fun c => c) then
    some (List.zipWith max aa bb)
  else
    none

/-- Modelled from the spec: the section 4.3 precondition that an input shape is
broadcastable to the output shape: it has no greater rank, and every
right-aligned pair of dimensions is equal or the input dimension is 1. -/
def broadcastableTo (small big : List Nat) : Bool :=
  decide (small.length ≤ big.length) &&
  (List.range small.length).all fun d =>
    small.getD d 0 == big.getD (d + (big.length - small.length)) 0
      || small.getD d 0 == 1

/-- Validity of a coordinate for a shape (section 3): same rank, and every entry
strictly below the corresponding shape entry. -/
def validIdx (shape c : List Nat) : Prop :=
  c.length = shape.length ∧ ∀ d, d < shape.length → c.getD d 0 < shape.getD d 0

instance instDecidableValidIdx (shape c : List Nat) : Decidable (validIdx shape c) := by
  unfold validIdx
  infer_instance

/-- Modelled from the spec: the `(storage, shape, strides)` triple that the
external tensor layer's `tuple()` accessor hands to the kernels (section 6). -/
structure TensorData (α : Type) where
  storage : List α
  shape : List Nat
  strides : List Nat
deriving DecidableEq

/-- Modelled from the spec: `a.zeros(shape)` of the external tensor layer
(section 6): a fresh zero-filled buffer of `shape.prod` cells with the default
contiguous strides. -/
def zerosTensor (α : Type) [Zero α] (shape : List Nat) : TensorData α :=
  ⟨List.replicate shape.prod 0, shape, contiguousStrides shape⟩

/-- The single traversal step of the map kernel at coordinate `c`: the storage
position written and the value written there,
`out[indexToPosition(c, outStrides)] = fn(inStorage[indexToPosition(broadcastIndex(c), inStrides)])`
(line 70 of `tensor_ops.py`). -/
def mapEvent {α : Type} [Zero α] (fn : α → α) (outShape outStrides : List Nat)
    (inStorage : List α) (inShape inStrides : List Nat) (c : List Nat) : Nat × α :=
  (indexToPosition c outStrides,
    fn (inStorage.getD (indexToPosition (broadcastIndex c outShape inShape) inStrides) 0))

/-- Embedding of `tensor_map(fn)._map.recursive_set` (`tensor_ops.py` lines
44-74).  The fuel argument is `length - shape_index`, so fuel `0` is the
`shape_index >= length` return.  The threaded state is the output storage
paired with the ordered trace of `(position, value)` writes performed by
`out[out_storage_position] = fn(in_storage[in_storage_position])`. -/
def mapRecursiveSet {α : Type} [Zero α] (fn : α → α) (outShape outStrides : List Nat)
    (inStorage : List α) (inShape inStrides : List Nat) :
    Nat → List Nat → Nat → List α × List (Nat × α) → List α × List (Nat × α)
  | 0, _, _, st => st
  | fuel + 1, cur, si, st =>
    (List.range (outShape.getD si 0)).foldl
      (fun st i =>
        let cur2 := cur.set si i
        let e := mapEvent fn outShape outStrides inStorage inShape inStrides cur2
        mapRecursiveSet fn outShape outStrides inStorage inShape inStrides fuel cur2
          (si + 1) (st.1.set e.1 e.2, st.2 ++ [e]))
      st

/-- Embedding of `tensor_map(fn)._map` (`tensor_ops.py` lines 41-74): runs
`recursive_set([0] * length, 0)` and returns the final storage together with
the write trace. -/
def tensor_map {α : Type} [Zero α] (fn : α → α) (out : List α)
    (outShape outStrides : List Nat) (inStorage : List α)
    (inShape inStrides : List Nat) : List α × List (Nat × α) :=
  mapRecursiveSet fn outShape outStrides inStorage inShape inStrides
    outShape.length (List.replicate outShape.length 0) 0 (out, [])

/-- Embedding of `map(fn).ret` with `out=None` (`tensor_ops.py` lines 111-115):
allocates `a.zeros(a.shape)` and fills it with the kernel. -/
def mapRet {α : Type} [Zero α] (fn : α → α) (a : TensorData α) : TensorData α :=
  let out := zerosTensor α a.shape
  { out with
    storage := (tensor_map fn out.storage out.shape out.strides
      a.storage a.shape a.strides).1 }

/-- Embedding of `tensor_zip(fn)._zip.recursive_set` (`tensor_ops.py` lines
166-202), fuel-indexed exactly like the map kernel. -/
def zipRecursiveSet {α : Type} [Zero α] (fn : α → α → α) (outShape outStrides : List Nat)
    (aStorage : List α) (aShape aStrides : List Nat)
    (bStorage : List α) (bShape bStrides : List Nat) :
    Nat → List Nat → Nat → List α → List α
  | 0, _, _, out => out
  | fuel + 1, cur, si, out =>
    (List.range (outShape.getD si 0)).foldl
      (fun out i =>
        let cur2 := cur.set si i
        let aPos := indexToPosition (broadcastIndex cur2 outShape aShape) aStrides
        let bPos := indexToPosition (broadcastIndex cur2 outShape bShape) bStrides
        let outPos := indexToPosition cur2 outStrides
        zipRecursiveSet fn outShape outStrides aStorage aShape aStrides bStorage bShape
          bStrides fuel cur2 (si + 1)
          (out.set outPos (fn (aStorage.getD aPos 0) (bStorage.getD bPos 0))))
      out

/-- Embedding of `tensor_zip(fn)._zip` (`tensor_ops.py` lines 153-204). -/
def tensor_zip {α : Type} [Zero α] (fn : α → α → α) (out : List α)
    (outShape outStrides : List Nat) (aStorage : List α) (aShape aStrides : List Nat)
    (bStorage : List α) (bShape bStrides : List Nat) : List α :=
  zipRecursiveSet fn outShape outStrides aStorage aShape aStrides bStorage bShape bStrides
    outShape.length (List.replicate outShape.length 0) 0 out

/-- Embedding of `zip(fn).ret` (`tensor_ops.py` lines 238-245): the broadcast
resolver is consulted only on the `a.shape != b.shape` branch; the output is a
zero-filled tensor of the chosen shape filled by the zip kernel.  A
`ShapeMismatch` failure of the resolver is embedded as `none`. -/
def zipRet {α : Type} [Zero α] (fn : α → α → α) (a b : TensorData α) :
    Option (TensorData α) :=
  (if a.shape ≠ b.shape then shapeBroadcast a.shape b.shape else some a.shape).map
    fun cShape =>
      let out := zerosTensor α cShape
      { out with
        storage := tensor_zip fn out.storage out.shape out.strides
          a.storage a.shape a.strides b.storage b.shape b.strides }

/-- Embedding of `tensor_reduce(fn)._reduce.recursive_set` (`tensor_ops.py`
lines 274-311).  The recursion depth is governed by `len(a_shape)`; the level-0
loop runs over `range(a_shape[0])` while every deeper level runs over
`range(1, a_shape[shape_index])`.  When the coordinate's `reduce_dim` entry is
`0` the input element is assigned directly over the output cell, otherwise it
is combined with `fn` into the output cell at the coordinate with `reduce_dim`
zeroed. -/
def reduceRecursiveSet {α : Type} [Zero α] (fn : α → α → α) (outStrides : List Nat)
    (aStorage : List α) (aShape aStrides : List Nat) (reduceDim : Nat) :
    Nat → List Nat → Nat → List α → List α
  | 0, _, _, out => out
  | fuel + 1, cur, si, out =>
    (if si = 0 then List.range (aShape.getD si 0)
     else List.range' 1 (aShape.getD si 0 - 1)).foldl
      (fun out i =>
        let cur2 := cur.set si i
        let aPos := indexToPosition cur2 aStrides
        let out2 :=
          if cur2.getD reduceDim 0 = 0 then
            out.set (indexToPosition cur2 outStrides) (aStorage.getD aPos 0)
          else
            let curOut := cur2.set reduceDim 0
            let outPos := indexToPosition curOut outStrides
            out.set outPos (fn (out.getD outPos 0) (aStorage.getD aPos 0))
        reduceRecursiveSet fn outStrides aStorage aShape aStrides reduceDim fuel cur2
          (si + 1) out2)
      out

/-- Embedding of `tensor_reduce(fn)._reduce` (`tensor_ops.py` lines 271-311).
The `outShape` argument is passed for signature fidelity; as in the source, the
kernel body never consults it (depth comes from `a_shape`, positions from
`out_strides`). -/
def tensor_reduce {α : Type} [Zero α] (fn : α → α → α) (out : List α)
    (outShape outStrides : List Nat) (aStorage : List α) (aShape aStrides : List Nat)
    (reduceDim : Nat) : List α :=
  reduceRecursiveSet fn outStrides aStorage aShape aStrides reduceDim
    aShape.length (List.replicate aShape.length 0) 0 out

/-- Embedding of the output construction in `reduce(fn, start).ret`
(`tensor_ops.py` lines 342-347): `out_shape` is `a.shape` with entry `dim` set
to `1`, the buffer is allocated by `a.zeros` and then wholly overwritten with
the seed by `out._tensor._storage[:] = start`. -/
def reducePreOut {α : Type} [Zero α] (start : α) (a : TensorData α) (dim : Nat) :
    TensorData α :=
  let outShape := a.shape.set dim 1
  { storage := List.replicate outShape.prod start
    shape := outShape
    strides := contiguousStrides outShape }

/-- Embedding of `reduce(fn, start).ret` (`tensor_ops.py` lines 341-350): the
seed-filled output is handed to the reduce kernel. -/
def reduceRet {α : Type} [Zero α] (fn : α → α → α) (start : α) (a : TensorData α)
    (dim : Nat) : TensorData α :=
  let out := reducePreOut start a dim
  { out with
    storage := tensor_reduce fn out.storage out.shape out.strides
      a.storage a.shape a.strides dim }

/-- Modelled from the spec: the documented left-fold reduce semantics of
section 4.5, `fn` applied left-to-right starting from the seed across the
elements along the reduced dimension. -/
def specReduceFold {α : Type} (fn : α → α → α) (seed : α) (xs : List α) : α :=
  xs.foldl fn seed

/-- The write trace of the map kernel traversal as a pure function of the
traversal parameters: one `mapEvent` per loop iteration of every recursion
level, in traversal order.  This is the specification object used to reason
about the side effects of `mapRecursiveSet`. -/
def mapTrace {α : Type} [Zero α] (fn : α → α) (outShape outStrides : List Nat)
    (inStorage : List α) (inShape inStrides : List Nat) :
    Nat → List Nat → Nat → List (Nat × α)
  | 0, _, _ => []
  | fuel + 1, cur, si =>
    (List.range (outShape.getD si 0)).flatMap fun i =>
      let cur2 := cur.set si i
      mapEvent fn outShape outStrides inStorage inShape inStrides cur2
        :: mapTrace fn outShape outStrides inStorage inShape inStrides fuel cur2 (si + 1)

/-- Replays a list of `(position, value)` write events over a storage buffer in
order. -/
def applyWrites {α : Type} (ws : List (Nat × α)) (s : List α) : List α :=
  ws.foldl (fun s e => s.set e.1 e.2) s

/-- Kernel invocation state for the frame claims: every buffer a kernel call
receives, with `out` the designated output storage.  The three state-passing
kernels below repeat the source traversals over this record so that the
absence of writes to anything but `out` is expressible. -/
structure KernelState (α : Type) where
  out : List α
  outShape : List Nat
  outStrides : List Nat
  aStorage : List α
  aShape : List Nat
  aStrides : List Nat
  bStorage : List α
  bShape : List Nat
  bStrides : List Nat

/-- Every component of a kernel state other than the output storage. -/
def KernelState.rest {α : Type} (s : KernelState α) :
    List Nat × List Nat × List α × List Nat × List Nat × List α × List Nat × List Nat :=
  (s.outShape, s.outStrides, s.aStorage, s.aShape, s.aStrides,
    s.bStorage, s.bShape, s.bStrides)

/-- State-passing form of `tensor_map(fn)._map.recursive_set`: identical
traversal to `mapRecursiveSet`, with the single storage assignment
`out[out_storage_position] = ...` embedded as an update of the `out` field. -/
def mapStateRec {α : Type} [Zero α] (fn : α → α) :
    Nat → List Nat → Nat → KernelState α → KernelState α
  | 0, _, _, s => s
  | fuel + 1, cur, si, s =>
    (List.range (s.outShape.getD si 0)).foldl
      (fun s i =>
        let cur2 := cur.set si i
        let inPos := indexToPosition (broadcastIndex cur2 s.outShape s.aShape) s.aStrides
        let outPos := indexToPosition cur2 s.outStrides
        mapStateRec fn fuel cur2 (si + 1)
          { s with out := s.out.set outPos (fn (s.aStorage.getD inPos 0)) })
      s

/-- State-passing form of the map kernel entry `recursive_set([0] * length, 0)`. -/
def mapStateRun {α : Type} [Zero α] (fn : α → α) (s : KernelState α) : KernelState α :=
  mapStateRec fn s.outShape.length (List.replicate s.outShape.length 0) 0 s

/-- State-passing form of `tensor_zip(fn)._zip.recursive_set`. -/
def zipStateRec {α : Type} [Zero α] (fn : α → α → α) :
    Nat → List Nat → Nat → KernelState α → KernelState α
  | 0, _, _, s => s
  | fuel + 1, cur, si, s =>
    (List.range (s.outShape.getD si 0)).foldl
      (fun s i =>
        let cur2 := cur.set si i
        let aPos := indexToPosition (broadcastIndex cur2 s.outShape s.aShape) s.aStrides
        let bPos := indexToPosition (broadcastIndex cur2 s.outShape s.bShape) s.bStrides
        let outPos := indexToPosition cur2 s.outStrides
        let v := fn (s.aStorage.getD aPos 0) (s.bStorage.getD bPos 0)
        zipStateRec fn fuel cur2 (si + 1) { s with out := s.out.set outPos v })
      s

/-- State-passing form of the zip kernel entry. -/
def zipStateRun {α : Type} [Zero α] (fn : α → α → α) (s : KernelState α) : KernelState α :=
  zipStateRec fn s.outShape.length (List.replicate s.outShape.length 0) 0 s

/-- State-passing form of `tensor_reduce(fn)._reduce.recursive_set`; the `a`
fields of the state play the role of the reduced input tensor. -/
def reduceStateRec {α : Type} [Zero α] (fn : α → α → α) (reduceDim : Nat) :
    Nat → List Nat → Nat → KernelState α → KernelState α
  | 0, _, _, s => s
  | fuel + 1, cur, si, s =>
    (if si = 0 then List.range (s.aShape.getD si 0)
     else List.range' 1 (s.aShape.getD si 0 - 1)).foldl
      (fun s i =>
        let cur2 := cur.set si i
        let aPos := indexToPosition cur2 s.aStrides
        let out2 :=
          if cur2.getD reduceDim 0 = 0 then
            s.out.set (indexToPosition cur2 s.outStrides) (s.aStorage.getD aPos 0)
          else
            let curOut := cur2.set reduceDim 0
            let outPos := indexToPosition curOut s.outStrides
            s.out.set outPos (fn (s.out.getD outPos 0) (s.aStorage.getD aPos 0))
        reduceStateRec fn reduceDim fuel cur2 (si + 1) { s with out := out2 })
      s

/-- State-passing form of the reduce kernel entry (depth `len(a_shape)`). -/
def reduceStateRun {α : Type} [Zero α] (fn : α → α → α) (reduceDim : Nat)
    (s : KernelState α) : KernelState α :=
  reduceStateRec fn reduceDim s.aShape.length (List.replicate s.aShape.length 0) 0 s

/-- Setting one cell leaves every other position of the buffer unchanged. -/
theorem getD_set_ne {α : Type} (l : List α) {i j : Nat} (a d : α) (h : i ≠ j) :
    (l.set i a).getD j d = l.getD j d := by
  simp [List.getD_eq_getElem?_getD, List.getElem?_set_ne h]

/-- Setting an in-bounds cell stores the written value at that position. -/
theorem getD_set_self {α : Type} (l : List α) {i : Nat} (a d : α) (h : i < l.length) :
    (l.set i a).getD i d = a := by
  simp [List.getD_eq_getElem?_getD, List.getElem?_set_eq_of_lt a h]

/-- Reading inside a replicated buffer returns the replicated value. -/
theorem getD_replicate {α : Type} {n i : Nat} (a d : α) (h : i < n) :
    (List.replicate n a).getD i d = a := by
  simp [List.getD_eq_getElem?_getD, List.getElem?_replicate, h]

/-- Reading past the end of a list returns the default. -/
theorem getD_of_length_le {α : Type} (l : List α) {i : Nat} (d : α) (h : l.length ≤ i) :
    l.getD i d = d := by
  simp [List.getD_eq_getElem?_getD, List.getElem?_eq_none h]

/-- Lists of `Nat` agreeing at every in-bounds `getD` position are equal. -/
theorem ext_getD {c1 c2 : List Nat} (h : c1.length = c2.length)
    (hd : ∀ d, d < c1.length → c1.getD d 0 = c2.getD d 0) : c1 = c2 := by
  apply List.ext_get h
  intro n h1 h2
  have := hd n h1
  simpa [List.getD_eq_getElem?_getD, List.getElem?_eq_getElem, h1, h2] using this

theorem applyWrites_nil {α : Type} (s : List α) : applyWrites [] s = s := rfl

theorem applyWrites_cons {α : Type} (e : Nat × α) (ws : List (Nat × α)) (s : List α) :
    applyWrites (e :: ws) s = applyWrites ws (s.set e.1 e.2) := rfl

theorem applyWrites_append {α : Type} (ws1 ws2 : List (Nat × α)) (s : List α) :
    applyWrites (ws1 ++ ws2) s = applyWrites ws2 (applyWrites ws1 s) := by
  simp [applyWrites, List.foldl_append]

theorem applyWrites_length {α : Type} (ws : List (Nat × α)) (s : List α) :
    (applyWrites ws s).length = s.length := by
  induction ws generalizing s with
  | nil => rfl
  | cons e ws ih => rw [applyWrites_cons, ih, List.length_set]

/-- Replaying writes that all avoid position `p` leaves the cell at `p` alone. -/
theorem applyWrites_getD_not_written {α : Type} (ws : List (Nat × α)) (s : List α)
    (p : Nat) (d : α) (h : ∀ e ∈ ws, e.1 ≠ p) :
    (applyWrites ws s).getD p d = s.getD p d := by
  induction ws generalizing s with
  | nil => rfl
  | cons e ws ih =>
    rw [applyWrites_cons, ih _ fun x hx => h x (List.mem_cons_of_mem e hx)]
    exact getD_set_ne _ _ _ (h e (List.mem_cons_self e ws))

/-- If some write hits position `p` and every write to `p` carries the value `v`,
replaying the writes leaves `v` at the in-bounds cell `p`. -/
theorem applyWrites_getD_written {α : Type} (ws : List (Nat × α)) (s : List α)
    (p : Nat) (v d : α) (hall : ∀ e ∈ ws, e.1 = p → e.2 = v)
    (hex : ∃ e ∈ ws, e.1 = p) (hp : p < s.length) :
    (applyWrites ws s).getD p d = v := by
  induction ws generalizing s with
  | nil => obtain ⟨e, he, _⟩ := hex; exact absurd he (List.not_mem_nil e)
  | cons e ws ih =>
    rw [applyWrites_cons]
    by_cases hw : ∃ f ∈ ws, f.1 = p
    · exact ih _ (fun f hf => hall f (List.mem_cons_of_mem e hf)) hw
        (by rw [List.length_set]; exact hp)
    · obtain ⟨f, hf, hfp⟩ := hex
      have hfe : f = e := by
        rcases List.mem_cons.mp hf with h | h
        · exact h
        · exact absurd ⟨f, h, hfp⟩ hw
      subst hfe
      rw [applyWrites_getD_not_written ws _ p d ?later]
      · rw [hfp, getD_set_self _ _ _ (hfp ▸ hp)]
        exact hall f (List.mem_cons_self f ws) hfp
      case later =>
        intro g hg hgp
        exact hw ⟨g, hg, hgp⟩

/-- The map kernel recursion is write-only: its final storage is the initial
storage with the pure trace `mapTrace` replayed over it, and it appends exactly
that trace (which does not mention the storage) to the trace component. -/
theorem mapRecursiveSet_eq {α : Type} [Zero α] (fn : α → α) (oS oStr : List Nat)
    (inS : List α) (iSh iStr : List Nat) :
    ∀ (fuel : Nat) (cur : List Nat) (si : Nat) (out : List α) (tr : List (Nat × α)),
      mapRecursiveSet fn oS oStr inS iSh iStr fuel cur si (out, tr)
        = (applyWrites (mapTrace fn oS oStr inS iSh iStr fuel cur si) out,
            tr ++ mapTrace fn oS oStr inS iSh iStr fuel cur si) := by
  intro fuel
  induction fuel with
  | zero =>
    intro cur si out tr
    simp [mapRecursiveSet, mapTrace, applyWrites]
  | succ fuel ih =>
    intro cur si out tr
    simp only [mapRecursiveSet, mapTrace]
    generalize List.range (oS.getD si 0) = l
    induction l generalizing out tr with
    | nil => simp [applyWrites]
    | cons i l ihl =>
      simp only [List.foldl_cons, List.flatMap_cons]
      rw [ih, ihl, applyWrites_append, applyWrites_cons]
      simp [List.append_assoc]

/-- Every event in the map kernel's trace is the `mapEvent` of a coordinate that
is valid for the output shape, provided the traversal starts from a valid
current index (which `[0] * length` is, for positive shapes). -/
theorem mapTrace_mem {α : Type} [Zero α] (fn : α → α) (oS oStr : List Nat)
    (inS : List α) (iSh iStr : List Nat) :
    ∀ (fuel : Nat) (cur : List Nat) (si : Nat),
      cur.length = oS.length →
      (∀ d, d < oS.length → cur.getD d 0 < oS.getD d 0) →
      ∀ e ∈ mapTrace fn oS oStr inS iSh iStr fuel cur si,
        ∃ c, validIdx oS c ∧ e = mapEvent fn oS oStr inS iSh iStr c := by
  intro fuel
  induction fuel with
  | zero =>
    intro cur si _ _ e he
    simp [mapTrace] at he
  | succ fuel ih =>
    intro cur si hlen hbound e he
    simp only [mapTrace, List.mem_flatMap] at he
    obtain ⟨i, hi, he⟩ := he
    rw [List.mem_range] at hi
    have hsi : si < oS.length := by
      by_contra hcon
      push_neg at hcon
      rw [getD_of_length_le oS 0 hcon] at hi
      omega
    have hlen2 : (cur.set si i).length = oS.length := by
      rw [List.length_set]; exact hlen
    have hbound2 : ∀ d, d < oS.length → (cur.set si i).getD d 0 < oS.getD d 0 := by
      intro d hd
      by_cases hds : d = si
      · subst hds
        rw [getD_set_self cur i 0 (by rw [hlen]; exact hsi)]
        exact hi
      · rw [getD_set_ne cur i 0 (Ne.symm hds)]
        exact hbound d hd
    rcases List.mem_cons.mp he with he | he
    · exact ⟨cur.set si i, ⟨hlen2, hbound2⟩, he⟩
    · exact ih (cur.set si i) (si + 1) hlen2 hbound2 e he

/-- Coverage of the map traversal: every coordinate valid for the output shape
that agrees with the current index left of `shape_index` is visited (its event
appears in the trace) when the fuel is exactly the remaining depth. -/
theorem mapTrace_coverage {α : Type} [Zero α] (fn : α → α) (oS oStr : List Nat)
    (inS : List α) (iSh iStr : List Nat) :
    ∀ (fuel : Nat) (cur c : List Nat) (si : Nat),
      cur.length = oS.length → c.length = oS.length →
      si + fuel = oS.length → si < oS.length →
      (∀ d, d < si → c.getD d 0 = cur.getD d 0) →
      (∀ d, si ≤ d → d < oS.length → c.getD d 0 < oS.getD d 0) →
      mapEvent fn oS oStr inS iSh iStr c ∈ mapTrace fn oS oStr inS iSh iStr fuel cur si := by
  intro fuel
  induction fuel with
  | zero =>
    intro cur c si _ _ hsum hsi _ _
    omega
  | succ fuel ih =>
    intro cur c si hcur hc hsum hsi hagree hbound
    simp only [mapTrace, List.mem_flatMap]
    refine ⟨c.getD si 0, List.mem_range.mpr (hbound si le_rfl hsi), ?_⟩
    have hset : (cur.set si (c.getD si 0)).length = oS.length := by
      rw [List.length_set]; exact hcur
    have hagree2 : ∀ d, d < si + 1 → c.getD d 0 = (cur.set si (c.getD si 0)).getD d 0 := by
      intro d hd
      by_cases hds : d = si
      · subst hds
        rw [getD_set_self cur _ 0 (by rw [hcur]; exact hsi)]
      · have hdlt : d < si := by omega
        rw [getD_set_ne cur _ 0 (Ne.symm hds)]
        exact hagree d hdlt
    rcases Nat.eq_zero_or_pos fuel with hf | hf
    · subst hf
      have hceq : c = cur.set si (c.getD si 0) := by
        apply ext_getD (by rw [hc, hset])
        intro d hd
        rw [hc] at hd
        exact hagree2 d (by omega)
      rw [← hceq]
      exact List.mem_cons_self _ _
    · have hsi2 : si + 1 < oS.length := by omega
      refine List.mem_cons_of_mem _ (ih (cur.set si (c.getD si 0)) c (si + 1) hset hc
        (by omega) hsi2 hagree2 ?_)
      intro d hd1 hd2
      exact hbound d (by omega) hd2

/-- The only coordinate valid for the shape `[1]` is `[0]`. -/
theorem validIdx_singleton {c : List Nat} (h : validIdx [1] c) : c = [0] := by
  obtain ⟨hlen, hb⟩ := h
  match c, hlen with
  | [x], _ =>
    have hx : x < 1 := by simpa [List.getD] using hb 0 (by decide)
    have : x = 0 := by omega
    simp [this]

/-- C3 (amended): for any map-kernel invocation satisfying the data-model
preconditions of section 3 (positive output rank and dimension sizes, and
injective in-bounds output addressing), the final storage holds
`fn(inStorage[indexToPosition(broadcastIndex(c, outShape, inShape), inStrides)])`
at `indexToPosition(c, outStrides)` for every coordinate `c` valid for
`outShape`; every such cell is written at least once (cells whose coordinate
has a trailing run of zeros are rewritten, with the same value, once per level
of that run); the final storage is the initial storage with the kernel's own
write trace replayed; and the write trace does not depend on the initial
output storage — the kernel never reads `outStorage`. -/
theorem map_kernel_semantics {α : Type} [Zero α] (fn : α → α) (out : List α)
    (outShape outStrides : List Nat) (inStorage : List α) (inShape inStrides : List Nat)
    (hrank : 0 < outShape.length)
    (hdims : ∀ d, d < outShape.length → 0 < outShape.getD d 0)
    (hbc : broadcastableTo inShape outShape = true)
    (hinj : ∀ c1 c2, validIdx outShape c1 → validIdx outShape c2 →
      indexToPosition c1 outStrides = indexToPosition c2 outStrides → c1 = c2)
    (hsz : ∀ c, validIdx outShape c → indexToPosition c outStrides < out.length) :
    (∀ c, validIdx outShape c →
      (tensor_map fn out outShape outStrides inStorage inShape inStrides).1.getD
          (indexToPosition c outStrides) 0
        = fn (inStorage.getD
            (indexToPosition (broadcastIndex c outShape inShape) inStrides) 0)
      ∧ 0 < List.countP (fun e => e.1 == indexToPosition c outStrides)
          (tensor_map fn out outShape outStrides inStorage inShape inStrides).2)
    ∧ (tensor_map fn out outShape outStrides inStorage inShape inStrides).1
        = applyWrites
            (tensor_map fn out outShape outStrides inStorage inShape inStrides).2 out
    ∧ ∀ out2 : List α,
        (tensor_map fn out2 outShape outStrides inStorage inShape inStrides).2
          = (tensor_map fn out outShape outStrides inStorage inShape inStrides).2 := by
  have htm : ∀ o : List α,
      tensor_map fn o outShape outStrides inStorage inShape inStrides
        = (applyWrites (mapTrace fn outShape outStrides inStorage inShape inStrides
            outShape.length (List.replicate outShape.length 0) 0) o,
          mapTrace fn outShape outStrides inStorage inShape inStrides
            outShape.length (List.replicate outShape.length 0) 0) := by
    intro o
    unfold tensor_map
    rw [mapRecursiveSet_eq, List.nil_append]
  have hcur0len : (List.replicate outShape.length (0 : Nat)).length = outShape.length :=
    List.length_replicate _ _
  have hcur0bound : ∀ d, d < outShape.length →
      (List.replicate outShape.length (0 : Nat)).getD d 0 < outShape.getD d 0 := by
    intro d hd
    rw [getD_replicate 0 0 hd]
    exact hdims d hd
  refine ⟨?_, ?_, ?_⟩
  · intro c hc
    have hcov : mapEvent fn outShape outStrides inStorage inShape inStrides c
        ∈ mapTrace fn outShape outStrides inStorage inShape inStrides
            outShape.length (List.replicate outShape.length 0) 0 := by
      apply mapTrace_coverage fn outShape outStrides inStorage inShape inStrides
        outShape.length (List.replicate outShape.length 0) c 0 hcur0len hc.1
        (by omega) hrank (fun d hd => absurd hd (Nat.not_lt_zero d))
      intro d _ hd2
      exact hc.2 d hd2
    constructor
    · rw [htm out]
      apply applyWrites_getD_written
      · intro e he hep
        obtain ⟨c2, hc2, he2⟩ := mapTrace_mem fn outShape outStrides inStorage inShape
          inStrides outShape.length (List.replicate outShape.length 0) 0
          hcur0len hcur0bound e he
        have hpos2 : indexToPosition c2 outStrides = indexToPosition c outStrides := by
          rw [he2] at hep
          simpa [mapEvent] using hep
        have hceq : c2 = c := hinj c2 c hc2 hc hpos2
        rw [he2, hceq]
        simp [mapEvent]
      · exact ⟨mapEvent fn outShape outStrides inStorage inShape inStrides c, hcov,
          by simp [mapEvent]⟩
      · exact hsz c hc
    · rw [htm out]
      apply List.countP_pos_iff.mpr
      exact ⟨mapEvent fn outShape outStrides inStorage inShape inStrides c, hcov,
        by simp [mapEvent]⟩
  · rw [htm out]
  · intro out2
    rw [htm out, htm out2]

/-- Witness for the map-kernel semantics theorem: shape `[1]`, strides `[1]`,
one-cell storage, with the successor function as the scalar map. -/
theorem map_kernel_semantics_witness :
    ((tensor_map (fun x : Int => x + 1) [0] [1] [1] [5] [1] [1]).1.getD
        (indexToPosition [0] [1]) 0
      = (fun x : Int => x + 1)
          ([5].getD (indexToPosition (broadcastIndex [0] [1] [1]) [1]) 0))
    ∧ 0 < List.countP (fun e => e.1 == indexToPosition [0] [1])
        (tensor_map (fun x : Int => x + 1) [0] [1] [1] [5] [1] [1]).2
    ∧ (tensor_map (fun x : Int => x + 1) [0] [1] [1] [5] [1] [1]).1
        = applyWrites (tensor_map (fun x : Int => x + 1) [0] [1] [1] [5] [1] [1]).2 [0]
    ∧ (tensor_map (fun x : Int => x + 1) [42] [1] [1] [5] [1] [1]).2
        = (tensor_map (fun x : Int => x + 1) [0] [1] [1] [5] [1] [1]).2 := by
  have h := map_kernel_semantics (fun x : Int => x + 1) [0] [1] [1] [5] [1] [1]
    (by decide) (by decide) (by decide)
    (fun c1 c2 h1 h2 _ => (validIdx_singleton h1).trans (validIdx_singleton h2).symm)
    (fun c hc => by rw [validIdx_singleton hc]; decide)
  exact ⟨(h.1 [0] (by decide)).1, (h.1 [0] (by decide)).2, h.2.1, h.2.2 [42]⟩

/-- C3 counterexample: the map kernel does not write every output cell exactly
once and its per-cell value contract needs the data-model preconditions.  With
output shape `[1, 1]` the single cell (position 0) receives two write events;
with the degenerate strides `[0]` two coordinates collide on position 0 and the
first cell does not end up holding `fn` of its broadcast source (it holds 7,
the value of the later colliding coordinate, not 5); and with a rank-0 output
shape nothing is written at all, so the cell addressed by the empty coordinate
keeps its old value 99. -/
theorem map_exactly_once_counterexample :
    List.countP (fun e => e.1 == (0 : Nat))
      (tensor_map (fun x : Int => x + 1) [0] [1, 1] [1, 1] [5] [1, 1] [1, 1]).2 = 2
    ∧ (tensor_map (fun x : Int => x) [0] [2] [0] [5, 7] [2] [1]).1 = [7]
    ∧ (tensor_map (fun x : Int => x + 1) [99] [] [] [5] [] []).1 = [99]
    ∧ (tensor_map (fun x : Int => x + 1) [99] [] [] [5] [] []).2 = [] := by
  decide

/-- When both zip operands are the same `(storage, shape, strides)` triple, the
zip traversal performs, step for step, exactly the writes of the map traversal
of the diagonalised function. -/
theorem zipRecursiveSet_diag {α : Type} [Zero α] (fn : α → α → α) (oS oStr : List Nat)
    (s : List α) (sh st : List Nat) :
    ∀ (fuel : Nat) (cur : List Nat) (si : Nat) (out : List α),
      zipRecursiveSet fn oS oStr s sh st s sh st fuel cur si out
        = applyWrites (mapTrace (fun x => fn x x) oS oStr s sh st fuel cur si) out := by
  intro fuel
  induction fuel with
  | zero =>
    intro cur si out
    simp [zipRecursiveSet, mapTrace, applyWrites]
  | succ fuel ih =>
    intro cur si out
    simp only [zipRecursiveSet, mapTrace]
    generalize List.range (oS.getD si 0) = l
    induction l generalizing out with
    | nil => simp [applyWrites]
    | cons i l ihl =>
      simp only [List.foldl_cons, List.flatMap_cons]
      rw [ih, ihl, applyWrites_append, applyWrites_cons]
      simp [mapEvent]

/-- C4: zipping a tensor with itself is, cell for cell (same shape, strides and
storage), the same as mapping the diagonalised scalar function over it. -/
theorem zip_map_consistency {α : Type} [Zero α] (fn : α → α → α) (a : TensorData α) :
    zipRet fn a a = some (mapRet (fun x => fn x x) a) := by
  unfold zipRet mapRet
  rw [if_neg (by simp)]
  simp only [Option.map_some', Option.some.injEq]
  unfold tensor_zip tensor_map
  rw [zipRecursiveSet_diag, mapRecursiveSet_eq]

/-- The map state traversal mutates nothing but the `out` field. -/
theorem mapStateRec_rest {α : Type} [Zero α] (fn : α → α) :
    ∀ (fuel : Nat) (cur : List Nat) (si : Nat) (s : KernelState α),
      (mapStateRec fn fuel cur si s).rest = s.rest := by
  intro fuel
  induction fuel with
  | zero => intro _ _ s; rfl
  | succ fuel ih =>
    intro cur si s
    simp only [mapStateRec]
    generalize List.range (s.outShape.getD si 0) = l
    induction l generalizing s with
    | nil => rfl
    | cons i l ihl =>
      simp only [List.foldl_cons]
      rw [ihl]
      exact ih _ _ _

/-- The zip state traversal mutates nothing but the `out` field. -/
theorem zipStateRec_rest {α : Type} [Zero α] (fn : α → α → α) :
    ∀ (fuel : Nat) (cur : List Nat) (si : Nat) (s : KernelState α),
      (zipStateRec fn fuel cur si s).rest = s.rest := by
  intro fuel
  induction fuel with
  | zero => intro _ _ s; rfl
  | succ fuel ih =>
    intro cur si s
    simp only [zipStateRec]
    generalize List.range (s.outShape.getD si 0) = l
    induction l generalizing s with
    | nil => rfl
    | cons i l ihl =>
      simp only [List.foldl_cons]
      rw [ihl]
      exact ih _ _ _

/-- The reduce state traversal mutates nothing but the `out` field. -/
theorem reduceStateRec_rest {α : Type} [Zero α] (fn : α → α → α) (rd : Nat) :
    ∀ (fuel : Nat) (cur : List Nat) (si : Nat) (s : KernelState α),
      (reduceStateRec fn rd fuel cur si s).rest = s.rest := by
  intro fuel
  induction fuel with
  | zero => intro _ _ s; rfl
  | succ fuel ih =>
    intro cur si s
    simp only [reduceStateRec]
    generalize (if si = 0 then List.range (s.aShape.getD si 0)
      else List.range' 1 (s.aShape.getD si 0 - 1)) = l
    induction l generalizing s with
    | nil => rfl
    | cons i l ihl =>
      simp only [List.foldl_cons]
      rw [ihl]
      exact ih _ _ _

/-- C7: a kernel invocation mutates only the designated output storage: after
running any of the three kernels on an invocation state, every input storage
and every shape and stride sequence passed in (including the output's own
shape and strides) is unchanged. -/
theorem kernels_frame {α : Type} [Zero α] (fn1 : α → α) (fn2 fn3 : α → α → α)
    (rd : Nat) (s : KernelState α) :
    (mapStateRun fn1 s).rest = s.rest
    ∧ (zipStateRun fn2 s).rest = s.rest
    ∧ (reduceStateRun fn3 rd s).rest = s.rest :=
  ⟨mapStateRec_rest fn1 _ _ _ _, zipStateRec_rest fn2 _ _ _ _,
    reduceStateRec_rest fn3 rd _ _ _ _⟩

/-- C1 (code behaviour at the failing input): reducing the one-element tensor
`[10]` of shape `(1,)` over dimension 0 with addition and seed 1 leaves the raw
input element 10 in the output storage — the kernel overwrote the seeded cell by
direct assignment — whereas the documented left fold of section 4.5 starting
from the seed yields 11. -/
theorem reduce_seed_discarded :
    (reduceRet (fun x y : Int => x + y) 1 ⟨[10], [1], [1]⟩ 0).storage = [10]
    ∧ specReduceFold (fun x y : Int => x + y) 1 [10] = 11 := by
  decide

/-- C2 (code behaviour at the failing input): with the reduced dimension of
size 1 the kernel performs a no-op copy of the input elements (storage stays
`[5, 7]`) instead of the one seed combination per cell demanded by section 4.5,
whose per-cell folds give 6 and 8. -/
theorem reduce_size_one_copy :
    (reduceRet (fun x y : Int => x + y) 1 ⟨[5, 7], [2, 1], [1, 1]⟩ 1).storage = [5, 7]
    ∧ specReduceFold (fun x y : Int => x + y) 1 [5] = 6
    ∧ specReduceFold (fun x y : Int => x + y) 1 [7] = 8 := by
  decide

/-- C5: the concrete reduce scenario of section 8: shape `(2,3)`, row-major
storage `[1..6]`, reduced over dimension 1 with addition and seed 0, yields
shape `(2,1)` with storage `[6, 15]`. -/
theorem concrete_reduce_scenario :
    (reduceRet (fun x y : Int => x + y) 0 ⟨[1, 2, 3, 4, 5, 6], [2, 3], [3, 1]⟩ 1).storage
        = [6, 15]
    ∧ (reduceRet (fun x y : Int => x + y) 0 ⟨[1, 2, 3, 4, 5, 6], [2, 3], [3, 1]⟩ 1).shape
        = [2, 1] := by
  decide

/-- C6: the concrete broadcast zip scenario of section 8: `(2,1)` storage
`[1, 2]` zipped under addition with `(1,3)` storage `[10, 20, 30]` yields shape
`(2,3)` with row-major storage `[11, 21, 31, 12, 22, 32]`. -/
theorem concrete_broadcast_zip_scenario :
    zipRet (fun x y : Int => x + y) ⟨[1, 2], [2, 1], [1, 1]⟩ ⟨[10, 20, 30], [1, 3], [3, 1]⟩
      = some ⟨[11, 21, 31, 12, 22, 32], [2, 3], [3, 1]⟩ := by
  decide

/-- C9 (amended): a map or zip kernel invocation whose OUTPUT shape has rank 0
returns with the output storage untouched, an empty write trace, and a result
independent of the scalar function (it is never called); the reduce kernel's
traversal is instead guarded by the INPUT shape's rank, so it is a rank-0 input
shape that makes it return untouched, for any output-shape argument. -/
theorem kernels_rank_zero_noop {α : Type} [Zero α] (fn1 : α → α) (fn2 fn3 : α → α → α)
    (out : List α) (outStrides : List Nat) (a : List α) (aShape aStrides : List Nat)
    (b : List α) (bShape bStrides : List Nat) (outShapeArg : List Nat) (rd : Nat) :
    tensor_map fn1 out [] outStrides a aShape aStrides = (out, [])
    ∧ tensor_zip fn2 out [] outStrides a aShape aStrides b bShape bStrides = out
    ∧ tensor_reduce fn3 out outShapeArg outStrides a [] aStrides rd = out :=
  ⟨rfl, rfl, rfl⟩

/-- C9 counterexample: the reduce kernel invoked with a rank-0 output shape but
the rank-1 input shape `[2]` does NOT return without writing: the output
storage `[99]` becomes `[12]`, because the kernel's early exit tests the input
shape's rank, not the output shape's. -/
theorem reduce_rank_zero_out_counterexample :
    tensor_reduce (fun x y : Int => x + y) [99] [] [] [5, 7] [2] [1] 0 = [12]
    ∧ ([12] : List Int) ≠ [99] := by
  decide

/-- C8: the output the reduce entry point hands to the kernel has the input's
shape with dimension `dim` set to 1 (so the same rank), and every cell of its
storage equals the seed. -/
theorem reduce_preout_spec {α : Type} [Zero α] (start : α) (a : TensorData α)
    (dim : Nat) (hdim : dim < a.shape.length) :
    (reducePreOut start a dim).shape = a.shape.set dim 1
    ∧ (reducePreOut start a dim).shape.length = a.shape.length
    ∧ (reducePreOut start a dim).shape.getD dim 0 = 1
    ∧ (∀ d, d < a.shape.length → d ≠ dim →
        (reducePreOut start a dim).shape.getD d 0 = a.shape.getD d 0)
    ∧ (∀ i, i < (reducePreOut start a dim).storage.length →
        (reducePreOut start a dim).storage.getD i 0 = start) := by
  refine ⟨rfl, ?_, ?_, ?_, ?_⟩
  · show (a.shape.set dim 1).length = a.shape.length
    exact List.length_set a.shape dim 1
  · show (a.shape.set dim 1).getD dim 0 = 1
    exact getD_set_self a.shape 1 0 hdim
  · intro d _ hne
    show (a.shape.set dim 1).getD d 0 = a.shape.getD d 0
    exact getD_set_ne a.shape 1 0 (Ne.symm hne)
  · intro i hi
    show (List.replicate (a.shape.set dim 1).prod start).getD i 0 = start
    apply getD_replicate
    simpa [reducePreOut, List.length_replicate] using hi

/-- Witness for the reduce pre-output theorem at the section 8 tensor, seed 7,
dimension 1. -/
theorem reduce_preout_spec_witness :
    (reducePreOut (7 : Int) ⟨[1, 2, 3, 4, 5, 6], [2, 3], [3, 1]⟩ 1).shape = [2, 1]
    ∧ (reducePreOut (7 : Int) ⟨[1, 2, 3, 4, 5, 6], [2, 3], [3, 1]⟩ 1).shape.length = 2
    ∧ (reducePreOut (7 : Int) ⟨[1, 2, 3, 4, 5, 6], [2, 3], [3, 1]⟩ 1).shape.getD 1 0 = 1
    ∧ (reducePreOut (7 : Int) ⟨[1, 2, 3, 4, 5, 6], [2, 3], [3, 1]⟩ 1).shape.getD 0 0 = 2
    ∧ (reducePreOut (7 : Int) ⟨[1, 2, 3, 4, 5, 6], [2, 3], [3, 1]⟩ 1).storage.getD 0 0 = 7
    ∧ (reducePreOut (7 : Int) ⟨[1, 2, 3, 4, 5, 6], [2, 3], [3, 1]⟩ 1).storage.getD 1 0
        = 7 := by
  obtain ⟨h1, h2, h3, h4, h5⟩ :=
    reduce_preout_spec (7 : Int) ⟨[1, 2, 3, 4, 5, 6], [2, 3], [3, 1]⟩ 1 (by decide)
  refine ⟨?_, h2, h3, ?_, ?_, ?_⟩
  · rw [h1]; rfl
  · exact h4 0 (by decide) (by decide)
  · exact h5 0 (by decide)
  · exact h5 1 (by decide)

/-- C10: with equal operand shapes the zip entry point takes the branch that
uses `a.shape` directly, so the result always exists and has that shape; a
`ShapeMismatch` failure can arise only on the branch for differing shapes,
when the broadcast resolver itself fails. -/
theorem zip_equal_shapes_no_mismatch {α : Type} [Zero α] (fn : α → α → α)
    (a b : TensorData α) :
    (a.shape = b.shape → ∃ t, zipRet fn a b = some t ∧ t.shape = a.shape)
    ∧ (zipRet fn a b = none →
        a.shape ≠ b.shape ∧ shapeBroadcast a.shape b.shape = none) := by
  constructor
  · intro h
    unfold zipRet
    rw [if_neg (by simp [h])]
    exact ⟨_, rfl, rfl⟩
  · intro hnone
    unfold zipRet at hnone
    by_cases hs : a.shape = b.shape
    · rw [if_neg (by simp [hs])] at hnone
      simp at hnone
    · refine ⟨hs, ?_⟩
      rw [if_pos hs] at hnone
      cases hb : shapeBroadcast a.shape b.shape with
      | none => rfl
      | some c =>
        rw [hb] at hnone
        simp at hnone

/-- Witness for the zip shape-branch theorem: equal shapes `[2]` succeed, and a
failing invocation has the differing shapes `[2]` and `[3]` on which the
resolver fails. -/
theorem zip_equal_shapes_no_mismatch_witness :
    (zipRet (fun x y : Int => x + y) ⟨[1, 2], [2], [1]⟩ ⟨[3, 4], [2], [1]⟩).isSome = true
    ∧ (([2] : List Nat) ≠ [3] ∧ shapeBroadcast [2] [3] = none) := by
  constructor
  · obtain ⟨t, ht, _⟩ := (zip_equal_shapes_no_mismatch (fun x y : Int => x + y)
      ⟨[1, 2], [2], [1]⟩ ⟨[3, 4], [2], [1]⟩).1 rfl
    rw [ht]
    rfl
  · exact (zip_equal_shapes_no_mismatch (fun x y : Int => x + y)
      ⟨[1, 2], [2], [1]⟩ ⟨[3, 4, 5], [3], [1]⟩).2 (by decide)
